import Mathlib

/-!
Shallow embedding of `dune/daqinput35t/SSPDiagnosticAna_module.cc` (class
`DAQToOffline::SSPDiagnosticAna`).

Conventions of the embedding:
* C++ `double` values are modelled as rationals (`ℚ`); the quantities that
  appear here (window constants, accumulator sums, histogram bin edges) are
  exact in both models.  Division by zero in `ℚ` yields `0`, standing in for
  the NaN/Inf an actual `double` division by zero would produce.
* Machine-integer arithmetic is modelled on `ℕ`/`ℤ` with explicit `% 2^w`
  where the source relies on unsigned wrap-around.
* The raw fragment walked by `analyze` (lines 444-541) is modelled as a
  function from a 32-bit-word offset to the trigger-record information the
  decoding collaborator (`SSPReformatterAlgs`, external to this file's
  source) would report there: the declared record length read from the
  header, and either the decoded header fields or `none` when the
  collaborator throws `cet::exception` (caught at line 529).
* ROOT histograms (`TH1D`/`TH2D`) are modelled by their fixed-width binned
  axes and a bin-content table, with `Fill`, `SetBinContent`,
  `GetBinLowEdge`, `GetBinCenter` and `FindBin` following ROOT's documented
  fixed-bin semantics (bin 0 = underflow, bin n+1 = overflow).
-/

/-- Peak-sum window length `m1_window` (SSPDiagnosticAna_module.cc:90). -/
def m1_window : ℚ := 10

/-- Integration window length `i1_window` (line 91). -/
def i1_window : ℚ := 500

/-- Baseline (prerise) window length `i2_window` (line 92). -/
def i2_window : ℚ := 500

/-- Line 476: `double PulseAmplitude = -prerise/i2_window*1.0 + peakSum/m1_window*1.0;`. -/
def PulseAmplitude (prerise peakSum : ℚ) : ℚ :=
  -prerise / i2_window * 1 + peakSum / m1_window * 1

/-- Line 488: `double IntegratedCharge = integratedSum - prerise/i2_window*i1_window*1.0;`. -/
def IntegratedCharge (integratedSum prerise : ℚ) : ℚ :=
  integratedSum - prerise / i2_window * i1_window * 1

/-- Line 523: records with `FirstSample < 1e16` are treated as timing anomalies. -/
def timeThreshold : Nat := 10 ^ 16

/-- Line 463: `unsigned int nADC=(daqHeader->length-sizeof(SSPDAQ::EventHeader)/sizeof(unsigned int))*2;`.
The subtraction happens in `size_t` (64-bit unsigned, wrapping), the product is
then truncated to `unsigned int` (32 bits) by the initialisation.  `hs` is the
header size in 32-bit words, `len` the declared record length field. -/
def nADCof (hs len : Nat) : Nat :=
  ((len + (2 ^ 64 - hs)) % 2 ^ 64 * 2) % 2 ^ 32

/-- Header fields delivered by the decoding collaborator for one trigger
record: `GetOpChannel`, `GetGlobalFirstSample`, `GetPeakSum`,
`GetBaselineSum`, `GetIntegratedSum` (lines 467-474). -/
structure DecodedHeader where
  opChannel : Nat
  firstSample : Nat
  peakSum : ℚ
  prerise : ℚ
  integratedSum : ℚ
deriving DecidableEq

/-- What decoding the trigger record whose header starts at a given word
offset yields: the declared length field of the header (always readable)
and the collaborator's decode result (`none` models the `cet::exception`
caught at line 529). -/
structure RecordInfo where
  length : Nat
  decode : Option DecodedHeader
deriving DecidableEq

/-- Observable side effects of the trigger loop of `analyze` (lines 447-540):
the per-record amplitude and charge histogram fills (lines 501, 510), the
`firstTime`/`lastTime` min/max bookkeeping and per-channel trigger counter
(lines 533-535), and the trace of header reads (offset, words) performed at
line 459. -/
structure WalkState where
  ampFills : List (Nat × ℚ)
  chargeFills : List (Nat × ℚ)
  firstTime : Nat
  lastTime : Nat
  triggerCount : Nat → Nat
  reads : List (Nat × Nat)

/-- Result of walking one fragment: final data pointer (word offset),
number of loop iterations performed, accumulated state, and whether the
model's fuel ran out before the loop condition failed. -/
structure WalkResult where
  finalPtr : Nat
  processed : Nat
  state : WalkState
  fuelOut : Bool

/-- `firstTime = 1<<63` and `lastTime = 0` are set in `beginJob`
(lines 168-169); the other components start empty. -/
def initWalkState : WalkState :=
  ⟨[], [], 2 ^ 63, 0, fun _ => 0, []⟩

/-- The trigger loop of `analyze`, lines 447-540:

    for (unsigned int triggersProcessed = 0;
         (nTriggers==0 || triggersProcessed < nTriggers) && dataPointer < sspf.dataEnd();
         ++triggersProcessed) { ... }

Each iteration reads the header at the current pointer (line 459), advances
the pointer past the header (line 460), computes `nADC` (line 463), and then:
* if the collaborator throws, `continue` (line 530) — note this skips the
  `dataPointer+=nADC/2;` advance of line 538;
* otherwise the amplitude/charge fills are produced (lines 490-519); if
  `FirstSample < 1e16` the record `continue`s (line 526) — again skipping
  line 538; otherwise the time/trigger bookkeeping runs (lines 533-535) and
  the pointer advances past the ADC payload (line 538).
`fuel` bounds the recursion depth of the model only. -/
def walk (hs : Nat) (frag : Nat → RecordInfo) (dataEnd nTriggers : Nat) :
    Nat → Nat → Nat → WalkState → WalkResult
  | 0, p, processed, st => ⟨p, processed, st, true⟩
  | fuel + 1, p, processed, st =>
    if (nTriggers = 0 ∨ processed < nTriggers) ∧ p < dataEnd then
      let r := frag p
      let st0 : WalkState := { st with reads := (p, hs) :: st.reads }
      let p1 := p + hs
      let nADC := nADCof hs r.length
      match r.decode with
      | none => walk hs frag dataEnd nTriggers fuel p1 (processed + 1) st0
      | some d =>
        let amp := PulseAmplitude d.prerise d.peakSum
        let chg := IntegratedCharge d.integratedSum d.prerise
        let st1 : WalkState := { st0 with
          ampFills := (d.opChannel, amp) :: st0.ampFills
          chargeFills := (d.opChannel, chg) :: st0.chargeFills }
        if d.firstSample < timeThreshold then
          walk hs frag dataEnd nTriggers fuel p1 (processed + 1) st1
        else
          let st2 : WalkState := { st1 with
            firstTime := min st1.firstTime d.firstSample
            lastTime := max st1.lastTime d.firstSample
            triggerCount := fun c =>
              if c = d.opChannel then st1.triggerCount c + 1 else st1.triggerCount c }
          walk hs frag dataEnd nTriggers fuel (p1 + nADC / 2) (processed + 1) st2
    else ⟨p, processed, st, false⟩

/-- Total declared length (in words) of a list of trigger records. -/
def sumLen (rs : List RecordInfo) : Nat := (rs.map RecordInfo.length).sum

/-- The fragment `frag` holds the given records back to back starting at
word offset `p`: each record is found at the offset obtained by summing the
declared lengths of its predecessors. -/
def layoutOk (frag : Nat → RecordInfo) : Nat → List RecordInfo → Prop
  | _, [] => True
  | p, r :: rs => frag p = r ∧ layoutOk frag (p + r.length) rs

/-- A well-formed trigger record: its declared length covers at least the
header, the resulting `nADC` does not overflow 32 bits, and it decodes with
a first-sample timestamp at or above the validity threshold. -/
def goodRec (hs : Nat) (r : RecordInfo) : Prop :=
  hs ≤ r.length ∧ 2 * (r.length - hs) < 2 ^ 32 ∧
    ∃ d, r.decode = some d ∧ timeThreshold ≤ d.firstSample

/-- Fragment for exercising the error path: every header offset reports a
record declaring 20 words whose field extraction fails. -/
def desyncFrag : Nat → RecordInfo := fun _ => ⟨20, none⟩

/-- Fragment for exercising an absurd declared length: the record at offset 0
declares length 0 (less than the header itself) but decodes fine with a
valid timestamp. -/
def absurdFrag : Nat → RecordInfo := fun _ => ⟨0, some ⟨3, 10 ^ 16, 0, 0, 0⟩⟩

/-- A single well-formed record: declared length 12 words (equal to the
header size used below), decoding to channel 3 with a valid timestamp. -/
def wfRecord : RecordInfo := ⟨12, some ⟨3, 10 ^ 16, 0, 0, 0⟩⟩

/-- Fragment holding `wfRecord` at offset 0. -/
def wfFrag : Nat → RecordInfo := fun _ => wfRecord

/-- Header fields with a below-threshold first-sample timestamp. -/
def lowTsHeader : DecodedHeader := ⟨9, 5, 2, 3, 4⟩

/-- Fragment whose records decode to `lowTsHeader` (timing-anomaly path). -/
def lowTsFrag : Nat → RecordInfo := fun _ => ⟨12, some lowTsHeader⟩

/-- The five per-channel maps of the module (lines 96-103).  Each histogram
is modelled by its list of fills; `none` means the map holds no entry for
that channel (the histogram has not been lazily created). -/
structure AnaMaps where
  averageWaveforms : Nat → Option (List (ℚ × ℚ))
  waveformFFTs : Nat → Option (List ℚ)
  PulseAmplitudePerChannel : Nat → Option (List ℚ)
  IntegratedChargePerChannel : Nat → Option (List ℚ)
  PulseAmplitudeVsIntegratedChargePerChannel : Nat → Option (List (ℚ × ℚ))

/-- `beginRun` (lines 172-177): it calls `clear()` on exactly three maps —
`PulseAmplitudePerChannel`, `IntegratedChargePerChannel` and
`PulseAmplitudeVsIntegratedChargePerChannel`; `averageWaveforms` (and
`waveformFFTs`) are not touched. -/
def beginRunClear (s : AnaMaps) : AnaMaps :=
  { s with
    PulseAmplitudePerChannel := fun _ => none
    IntegratedChargePerChannel := fun _ => none
    PulseAmplitudeVsIntegratedChargePerChannel := fun _ => none }

/-- The lazy create-and-fill pattern of `analyze` for a per-channel 1D map
(lines 494-501 for the amplitude map, likewise lines 503-510): whatever the
channel id, on first encounter an empty histogram is created under that
key, then the value is filled.  There is no upper bound on the channel. -/
def fillAmpMap (m : Nat → Option (List ℚ)) (ch : Nat) (v : ℚ) : Nat → Option (List ℚ) :=
  fun c => if c = ch then some (v :: (m ch).getD []) else m c

/-- A pre-`beginRun` state carrying prior-run content: channel 7 has a
waveform-vs-time histogram with one fill. -/
def preRunState : AnaMaps :=
  ⟨fun c => if c = 7 then some [(0, 1)] else none,
   fun _ => none, fun _ => none, fun _ => none, fun _ => none⟩

/-- endRun plot-formatting loop, lines 229-243:
`for ( int i = 0; i < 100; ++i ) { if (find(i)==end) continue; ... }`.
The channels actually processed are the ids below 100 whose entry exists
(`present i`). -/
def endRunFormatLoop (present : Nat → Bool) : List Nat :=
  (List.range 100).filter present

/-- endRun calibration loop, lines 246-287 (same iteration scheme). -/
def endRunCalibLoop (present : Nat → Bool) : List Nat :=
  (List.range 100).filter present

/-- endRun pulse-amp-vs-run extension loop, lines 311-344 (same scheme). -/
def endRunSummaryLoop (present : Nat → Bool) : List Nat :=
  (List.range 100).filter present

/-- endJob persistence loop over `PulseAmpVsRun`, lines 352-359
(same scheme, keyed on `PulseAmpVsRun.find(i)`). -/
def endJobPersistLoop (present : Nat → Bool) : List Nat :=
  (List.range 100).filter present

/-- `std::sort(peakVec.begin(), peakVec.end())` (lines 256/274): ascending
sort of the candidate peak positions. -/
def sortPeaks (peaks : List ℚ) : List ℚ :=
  List.insertionSort (· ≤ ·) peaks

/-- The peak-difference accumulation loop (lines 257-265 for amplitude,
275-283 for charge): `for ( int p = 1; p < nPeaks-1; ++p )`, taking
`diff = peakVec.at(p+1) - peakVec.at(p)`, skipping any `diff > hi` or
`diff < lo`, and otherwise adding it to the running sum and count.
Returns the final `(sum, nDiffs)` pair. -/
def peDiffLoop (lo hi : ℚ) (peaks : List ℚ) : ℚ × Nat :=
  let v := sortPeaks peaks
  (List.range' 1 (peaks.length - 2)).foldl
    (fun acc p =>
      let diff := v.getD (p + 1) 0 - v.getD p 0
      if diff > hi ∨ diff < lo then acc else (acc.1 + diff, acc.2 + 1))
    (0, 0)

/-- `ADCperPE /= double(nDiffs);` (line 266) applied to the loop result,
window `[10, 20]` (line 259).  Division by a zero count is `0` in the `ℚ`
model (NaN for the `double` of the source). -/
def ADCperPE (peaks : List ℚ) : ℚ :=
  (peDiffLoop 10 20 peaks).1 / ((peDiffLoop 10 20 peaks).2 : ℚ)

/-- `INTperPE /= double(nDiffs);` (line 284), window `[1000, 1800]`
(line 277). -/
def INTperPE (peaks : List ℚ) : ℚ :=
  (peDiffLoop 1000 1800 peaks).1 / ((peDiffLoop 1000 1800 peaks).2 : ℚ)

/-- Declarative description of what the loop keeps: the consecutive
differences of the sorted peaks taken at positions `p = 1 .. n-2`
(so the pair involving the first peak is excluded, the pair involving the
last peak is included), filtered to the window `[lo, hi]`. -/
def keptDiffs (lo hi : ℚ) (peaks : List ℚ) : List ℚ :=
  let v := sortPeaks peaks
  ((List.range' 1 (peaks.length - 2)).map (fun p => v.getD (p + 1) 0 - v.getD p 0)).filter
    (fun d => decide (lo ≤ d ∧ d ≤ hi))

/-- Modelled from the spec's words, for comparison with the source-derived
`keptDiffs` (not a translation of the code): "compute consecutive
differences, excluding the first and last peak (treated as edge
artifacts); keep only differences within a plausible-spacing window" —
i.e. differences among the *interior* peaks only, both the first and the
last sorted peak removed before differencing. -/
def specKeptDiffs (lo hi : ℚ) (peaks : List ℚ) : List ℚ :=
  let interior := ((sortPeaks peaks).drop 1).dropLast
  (List.zipWith (fun a b => b - a) interior interior.tail).filter
    (fun d => decide (lo ≤ d ∧ d ≤ hi))

/-- C-style cast of a `double` to `int` (truncation toward zero), used at
lines 322-323 and 328. -/
def cppTrunc (q : ℚ) : ℤ :=
  if q < 0 then -⌊-q⌋ else ⌊q⌋

/-- Fixed-bin-axis bin width. -/
def binWidth (n : Nat) (lo hi : ℚ) : ℚ := (hi - lo) / n

/-- ROOT `TAxis::GetBinLowEdge` for a fixed-bin axis:
`lo + (i-1)*width` (bin 1 is the first real bin, bin 0 the underflow). -/
def binLowEdge (n : Nat) (lo hi : ℚ) (i : Nat) : ℚ :=
  lo + ((i : ℚ) - 1) * binWidth n lo hi

/-- ROOT `TAxis::FindBin` for a fixed-bin axis: 0 below range (underflow),
`n+1` at or above the upper edge (overflow), otherwise
`1 + int(n*(x-lo)/(hi-lo))`. -/
def findBin (n : Nat) (lo hi x : ℚ) : Nat :=
  if x < lo then 0
  else if hi ≤ x then n + 1
  else 1 + (⌊(n : ℚ) * (x - lo) / (hi - lo)⌋).toNat

/-- ROOT `TAxis::GetBinCenter` for the 125-bin `[-20, 230)` amplitude axis
used by `PulseAmplitudePerChannel` (line 498): `-20 + (i-1)*2 + 1`. -/
def ampBinCenter (i : Nat) : ℚ := -20 + ((i : ℚ) - 1) * 2 + 1

/-- A fixed-binning ROOT `TH2D`: both axes plus the bin-content table
(indices 0 = underflow, `nbins+1` = overflow on each axis). -/
structure TH2Dm where
  nbinsX : Nat
  xlo : ℚ
  xhi : ℚ
  nbinsY : Nat
  ylo : ℚ
  yhi : ℚ
  content : Nat → Nat → ℚ

/-- ROOT `TH2::SetBinContent(binx, biny, v)`: no-op when either index is
outside `0 .. nbins+1`, otherwise overwrites the cell. -/
def TH2Dm.setBinContent (h : TH2Dm) (bx iy : Nat) (v : ℚ) : TH2Dm :=
  if bx ≤ h.nbinsX + 1 ∧ iy ≤ h.nbinsY + 1 then
    { h with content := fun a b => if a = bx ∧ b = iy then v else h.content a b }
  else h

/-- ROOT `TH2::Fill(x, y, w)`: adds weight `w` to the cell found by
`FindBin` on each axis (under/overflow cells included). -/
def TH2Dm.fill (h : TH2Dm) (x y w : ℚ) : TH2Dm :=
  let bx := findBin h.nbinsX h.xlo h.xhi x
  let iy := findBin h.nbinsY h.ylo h.yhi y
  { h with content := fun a b => if a = bx ∧ b = iy then h.content a b + w else h.content a b }

/-- Line 318: `new TH2D( name, title, 1, run, run+1, 125, -20, 230 )` —
the fresh single-run summary histogram for a channel seen for the first
time at `endRun`. -/
def freshSummary (run : Nat) : TH2Dm :=
  ⟨1, (run : ℚ), (run : ℚ) + 1, 125, -20, 230, fun _ _ => 0⟩

/-- Inner copy loop of the resize branch (lines 326-332): for each
`binY = 0 .. oldNbinsY`, copy `oldHist->GetBinContent(binX, binY)` into
the new histogram at `(FindBin((int)oldLowEdge(binX)), binY)`. -/
def copyOldRow (old : TH2Dm) (binX : Nat) (h : TH2Dm) : TH2Dm :=
  (List.range (old.nbinsY + 1)).foldl
    (fun h2 binY =>
      let oldVal := old.content binX binY
      let runNum : ℤ := cppTrunc (binLowEdge old.nbinsX old.xlo old.xhi binX)
      h2.setBinContent (findBin h2.nbinsX h2.xlo h2.xhi (runNum : ℚ)) binY oldVal)
    h

/-- Resize branch of the summary update (lines 319-335):
`firstRun = (int)min(run, oldLowEdge(1))`,
`lastRun = (int)max(run, oldLowEdge(oldNbinsX))`, allocate
`TH2D(..., lastRun-firstRun+1, firstRun, lastRun+1, 125, -20, 230)` and
copy every old cell (`binX = 0 .. oldNbinsX`, `binY = 0 .. oldNbinsY`). -/
def resizeSummary (old : TH2Dm) (run : Nat) : TH2Dm :=
  let firstRun : ℤ := cppTrunc (min (run : ℚ) (binLowEdge old.nbinsX old.xlo old.xhi 1))
  let lastRun : ℤ := cppTrunc (max (run : ℚ) (binLowEdge old.nbinsX old.xlo old.xhi old.nbinsX))
  (List.range (old.nbinsX + 1)).foldl (fun h binX => copyOldRow old binX h)
    ⟨(lastRun - firstRun + 1).toNat, (firstRun : ℚ), (lastRun : ℚ) + 1, 125, -20, 230,
     fun _ _ => 0⟩

/-- The "add the new data" loop (lines 337-342): for
`binY = 0 .. GetNbinsX()` of the per-run amplitude distribution (125 real
bins over `[-20, 230)`), `Fill( run, GetBinCenter(binY), GetBinContent(binY) )`
into the summary — an additive fill, not an overwrite.  `h1 binY` is the
per-run distribution's content at bin `binY`. -/
def addRunData (h : TH2Dm) (run : Nat) (h1 : Nat → ℚ) : TH2Dm :=
  (List.range (125 + 1)).foldl
    (fun acc binY => acc.fill (run : ℚ) (ampBinCenter binY) (h1 binY)) h

/-- One `endRun` summary update for one channel (lines 313-343): create a
fresh histogram if none exists, otherwise resize; then add the per-run
amplitude distribution. -/
def extendSummary (cur : Option TH2Dm) (run : Nat) (h1 : Nat → ℚ) : TH2Dm :=
  match cur with
  | none => addRunData (freshSummary run) run h1
  | some old => addRunData (resizeSummary old run) run h1

/-! ### Theorems -/

/-- In the normal path (`len ≥ hs`, no 32-bit overflow of `2*(len-hs)`),
advancing past the header (`hs` words, line 460) and then by `nADC/2`
words (line 538) lands exactly `len` words after the record start. -/
theorem nADC_half (hs len : Nat) (h1 : hs ≤ len)
    (h2 : 2 * (len - hs) < 2 ^ 32) (h3 : hs ≤ 2 ^ 64) :
    hs + nADCof hs len / 2 = len := by
  unfold nADCof
  have e : len + (2 ^ 64 - hs) = (len - hs) + 2 ^ 64 := by omega
  rw [e, Nat.add_mod_right, Nat.mod_eq_of_lt (by omega : len - hs < 2 ^ 64),
    Nat.mod_eq_of_lt (by omega : (len - hs) * 2 < 2 ^ 32)]
  omega

/-- C4: the derived quantities are the pure functions
`amplitude = -B/W2 + P/W1` and `charge = I - (B/W2)*W1i` with `W1 = 10`,
`W2 = 500`, `W1i = 500` (floating-point division, modelled exactly on `ℚ`),
and in particular `B = 500`, `P = 1000` gives amplitude `99`. -/
theorem C4_derived_quantities : ∀ B P I : ℚ,
    PulseAmplitude B P = -B / 500 + P / 10 ∧
    IntegratedCharge I B = I - B / 500 * 500 ∧
    PulseAmplitude 500 1000 = 99 := by
  intro B P I
  refine ⟨?_, ?_, ?_⟩ <;>
    · simp only [PulseAmplitude, IntegratedCharge, m1_window, i1_window, i2_window]
      norm_num

/-- C1 (failing input evaluation): walking a fragment whose record at
offset 0 declares a length of 20 words but fails header-field extraction.
With header size 12 words, declared data end 20 and declared trigger count
0, the walker's header reads happen at offsets 0 and then 12 — i.e. after
the failed record is skipped the pointer was advanced only past the header
(line 460), `continue` at line 530 having skipped the `dataPointer+=nADC/2`
advance of line 538 — not at the declared record length 20; the walk over
the remaining records is desynchronized (the second read also overruns the
declared data end: words 12..23 of a 20-word region). -/
theorem C1_skip_leaves_pointer_mid_record :
    (walk 12 desyncFrag 20 0 5 0 0 initWalkState).state.reads = [(12, 12), (0, 12)] ∧
    (walk 12 desyncFrag 20 0 5 0 0 initWalkState).finalPtr = 24 := by
  constructor <;> rfl

/-- Loop-count invariant of the trigger loop when the declared trigger
count `N` is positive: each iteration increments `triggersProcessed`, and
the loop condition requires `triggersProcessed < N`, so starting from
`processed ≤ N` with enough fuel the walk never exceeds `N` iterations, the
model never runs out of fuel, and the walk ends either because the count
was reached or because the pointer reached the declared data end. -/
theorem walk_count_invariant (hs : Nat) (frag : Nat → RecordInfo)
    (dataEnd N : Nat) (hN : 0 < N) :
    ∀ (fuel p processed : Nat) (st : WalkState), processed ≤ N → N - processed < fuel →
      (walk hs frag dataEnd N fuel p processed st).processed ≤ N ∧
      (walk hs frag dataEnd N fuel p processed st).fuelOut = false ∧
      ((walk hs frag dataEnd N fuel p processed st).processed = N ∨
        dataEnd ≤ (walk hs frag dataEnd N fuel p processed st).finalPtr) := by
  intro fuel
  induction fuel with
  | zero => intro p processed st h1 h2; omega
  | succ fuel ih =>
    intro p processed st h1 h2
    rw [walk]
    by_cases hc : (N = 0 ∨ processed < N) ∧ p < dataEnd
    · rw [if_pos hc]
      have hplt : processed < N := by
        rcases hc.1 with h | h
        · omega
        · exact h
      dsimp only
      split
      · exact ih _ _ _ (by omega) (by omega)
      · split
        · exact ih _ _ _ (by omega) (by omega)
        · exact ih _ _ _ (by omega) (by omega)
    · rw [if_neg hc]
      dsimp only
      refine ⟨h1, rfl, ?_⟩
      rcases Decidable.not_and_iff_or_not.mp hc with h | h
      · have : ¬ processed < N := fun hlt => h (Or.inr hlt)
        exact Or.inl (by omega)
      · exact Or.inr (by omega)

/-- C6: for every fragment whose declared trigger count is `N > 0`, the
trigger loop performs at most `N` iterations; when it stops short of `N`,
it is because the data pointer reached the declared data end — i.e. the
walk stops after the `N`-th record even if buffer space remains. -/
theorem C6_walker_respects_trigger_count (hs : Nat) (frag : Nat → RecordInfo)
    (dataEnd N fuel : Nat) (hN : 0 < N) (hfuel : N < fuel) :
    (walk hs frag dataEnd N fuel 0 0 initWalkState).processed ≤ N ∧
    (walk hs frag dataEnd N fuel 0 0 initWalkState).fuelOut = false ∧
    ((walk hs frag dataEnd N fuel 0 0 initWalkState).processed = N ∨
      dataEnd ≤ (walk hs frag dataEnd N fuel 0 0 initWalkState).finalPtr) :=
  walk_count_invariant hs frag dataEnd N hN fuel 0 0 initWalkState (by omega) (by omega)

/-- C6 witness: a fragment of 100 words of records that each declare one
word, with declared trigger count 2: the walk stops after exactly 2
iterations with 98 words of buffer left. -/
theorem C6_witness :
    ((walk 1 (fun _ => ⟨1, none⟩) 100 2 10 0 0 initWalkState).processed ≤ 2 ∧
     (walk 1 (fun _ => ⟨1, none⟩) 100 2 10 0 0 initWalkState).fuelOut = false ∧
     ((walk 1 (fun _ => ⟨1, none⟩) 100 2 10 0 0 initWalkState).processed = 2 ∨
       100 ≤ (walk 1 (fun _ => ⟨1, none⟩) 100 2 10 0 0 initWalkState).finalPtr)) ∧
    (walk 1 (fun _ => ⟨1, none⟩) 100 2 10 0 0 initWalkState).processed = 2 ∧
    (walk 1 (fun _ => ⟨1, none⟩) 100 2 10 0 0 initWalkState).finalPtr = 2 :=
  ⟨C6_walker_respects_trigger_count 1 (fun _ => ⟨1, none⟩) 100 2 10 (by omega) (by omega),
   by constructor <;> rfl⟩

/-- C8: when the loop condition holds and the record at the current pointer
decodes with a first-sample timestamp below the validity threshold
(`FirstSample < 1e16`, line 523), the iteration still produces the record's
amplitude and charge fills (lines 501, 510), leaves `firstTime`, `lastTime`
and the per-channel trigger counter untouched (lines 533-535 are skipped by
the `continue` of line 526), and the walk continues over the remaining
records — the iteration hands control back to the loop rather than
aborting the fragment. -/
theorem C8_low_timestamp_excluded_not_aborting (hs : Nat) (frag : Nat → RecordInfo)
    (dataEnd nTriggers fuel p processed : Nat) (st : WalkState) (d : DecodedHeader)
    (hcond : (nTriggers = 0 ∨ processed < nTriggers) ∧ p < dataEnd)
    (hdec : (frag p).decode = some d)
    (hts : d.firstSample < timeThreshold) :
    walk hs frag dataEnd nTriggers (fuel + 1) p processed st =
      walk hs frag dataEnd nTriggers fuel (p + hs) (processed + 1)
        { st with
          reads := (p, hs) :: st.reads
          ampFills := (d.opChannel, PulseAmplitude d.prerise d.peakSum) :: st.ampFills
          chargeFills := (d.opChannel, IntegratedCharge d.integratedSum d.prerise) :: st.chargeFills } := by
  rw [walk, if_pos hcond]
  dsimp only
  rw [hdec]
  dsimp only
  rw [if_pos hts]

/-- C8 witness: a concrete invocation on `lowTsFrag` (timestamp 5, below
the threshold) at pointer 0 with trigger count 0 and data end 24. -/
theorem C8_witness :
    walk 12 lowTsFrag 24 0 (2 + 1) 0 0 initWalkState =
      walk 12 lowTsFrag 24 0 2 (0 + 12) (0 + 1)
        { initWalkState with
          reads := (0, 12) :: initWalkState.reads
          ampFills := (lowTsHeader.opChannel,
            PulseAmplitude lowTsHeader.prerise lowTsHeader.peakSum) :: initWalkState.ampFills
          chargeFills := (lowTsHeader.opChannel,
            IntegratedCharge lowTsHeader.integratedSum lowTsHeader.prerise) :: initWalkState.chargeFills } :=
  C8_low_timestamp_excluded_not_aborting 12 lowTsFrag 24 0 2 0 0 initWalkState lowTsHeader
    (by constructor; exact Or.inl rfl; omega) rfl (by norm_num [lowTsHeader, timeThreshold])

/-- C7 counterexample: for the record of `absurdFrag` at offset 0 the
declared length is 0 while the header occupies 12 words.  The claim's
`nADC = 2 * (declared_length_words − header_size_words)` read over the
integers would be `−24`; the value the code computes (unsigned wrap-around,
line 463) is `2^32 − 24`, not `2·(0−12)`; and the record is not skipped:
walking the fragment (trigger count 0, data end 1000, fuel 3) produces the
record's amplitude fill. -/
theorem C7_cex :
    ((nADCof 12 0 : ℤ) ≠ 2 * ((0 : ℤ) - 12)) ∧
    nADCof 12 0 = 2 ^ 32 - 24 ∧
    (walk 12 absurdFrag 1000 0 3 0 0 initWalkState).state.ampFills.length = 1 := by
  refine ⟨by decide, by decide, ?_⟩
  rfl

/-- C7 amended: `nADC` is computed in unsigned arithmetic, so it is the
wrap-around value `2*(len−hs) mod 2^32` and is always `≥ 0`; in the sane
case `hs ≤ len` (no 32-bit overflow) it equals `2*(len−hs)`.  A record with
an absurd declared length (`len < hs`) is *not* skipped: it is fully
processed (its fills and bookkeeping happen), and the subsequent pointer
advance by `nADC/2 ≈ 2^31` words (line 538) jumps far past the declared
data end, so the walk over that fragment terminates without reading any
further record (no crash in the model). -/
theorem C7_amended :
    (∀ hs len : Nat, hs ≤ len → 2 * (len - hs) < 2 ^ 32 → hs ≤ 2 ^ 64 →
      nADCof hs len = 2 * (len - hs)) ∧
    (walk 12 absurdFrag 1000 0 3 0 0 initWalkState).state.ampFills.length = 1 ∧
    (walk 12 absurdFrag 1000 0 3 0 0 initWalkState).processed = 1 ∧
    (walk 12 absurdFrag 1000 0 3 0 0 initWalkState).finalPtr = 12 + nADCof 12 0 / 2 ∧
    (walk 12 absurdFrag 1000 0 3 0 0 initWalkState).fuelOut = false ∧
    1000 ≤ (walk 12 absurdFrag 1000 0 3 0 0 initWalkState).finalPtr := by
  refine ⟨?_, rfl, rfl, rfl, rfl, by decide⟩
  intro hs len h1 h2 h3
  have e := nADC_half hs len h1 h2 h3
  have hle : hs ≤ len := h1
  unfold nADCof at e ⊢
  omega

/-- C7 amended witness: the normal-case formula at `hs = 12`, `len = 20`. -/
theorem C7_amended_witness : nADCof 12 20 = 2 * (20 - 12) :=
  C7_amended.1 12 20 (by omega) (by norm_num) (by norm_num)

/-- Tiling invariant of the trigger loop with declared trigger count 0:
if the fragment holds a back-to-back list of well-formed records from
offset `p0` to the declared data end, the walk ends exactly at the data
end, never runs out of fuel, and every header read it performs lies inside
the data region. -/
theorem walk_tiling (hs : Nat) (frag : Nat → RecordInfo)
    (h0 : 0 < hs) (h64 : hs ≤ 2 ^ 64) :
    ∀ (rs : List RecordInfo) (p0 fuel processed : Nat) (st : WalkState),
      layoutOk frag p0 rs → (∀ r ∈ rs, goodRec hs r) → rs.length < fuel →
      (walk hs frag (p0 + sumLen rs) 0 fuel p0 processed st).finalPtr = p0 + sumLen rs ∧
      (walk hs frag (p0 + sumLen rs) 0 fuel p0 processed st).fuelOut = false ∧
      ∀ o w : Nat, (o, w) ∈ (walk hs frag (p0 + sumLen rs) 0 fuel p0 processed st).state.reads →
        (o, w) ∈ st.reads ∨ o + w ≤ p0 + sumLen rs := by
  intro rs
  induction rs with
  | nil =>
    intro p0 fuel processed st _ _ hfuel
    obtain ⟨fuel, rfl⟩ : ∃ f, fuel = f + 1 := ⟨fuel - 1, by omega⟩
    have hnil : sumLen ([] : List RecordInfo) = 0 := rfl
    rw [walk, if_neg (by rw [hnil]; omega)]
    exact ⟨rfl, rfl, fun o w h => Or.inl h⟩
  | cons r rs ih =>
    intro p0 fuel processed st hlay hgood hfuel
    obtain ⟨hfr, hlay2⟩ := hlay
    obtain ⟨hlen, hov, d, hdec, hts⟩ := hgood r (by exact List.mem_cons_self r rs)
    obtain ⟨fuel, rfl⟩ : ∃ f, fuel = f + 1 := ⟨fuel - 1, by omega⟩
    have hsum : sumLen (r :: rs) = r.length + sumLen rs := by
      simp [sumLen]
    have hde : p0 + sumLen (r :: rs) = (p0 + r.length) + sumLen rs := by omega
    rw [hde]
    have hc : ((0 : Nat) = 0 ∨ processed < 0) ∧ p0 < (p0 + r.length) + sumLen rs := by
      exact ⟨Or.inl rfl, by omega⟩
    rw [walk, if_pos hc]
    dsimp only
    rw [hfr, hdec]
    dsimp only
    rw [if_neg (by omega : ¬ d.firstSample < timeThreshold)]
    have hadv : p0 + hs + nADCof hs r.length / 2 = p0 + r.length := by
      have := nADC_half hs r.length hlen hov h64
      omega
    rw [hadv]
    have step := ih (p0 + r.length) fuel (processed + 1)
      ({ st with
          reads := (p0, hs) :: st.reads
          ampFills := (d.opChannel, PulseAmplitude d.prerise d.peakSum) :: st.ampFills
          chargeFills := (d.opChannel, IntegratedCharge d.integratedSum d.prerise) :: st.chargeFills
          firstTime := min st.firstTime d.firstSample
          lastTime := max st.lastTime d.firstSample
          triggerCount := fun c =>
            if c = d.opChannel then st.triggerCount c + 1 else st.triggerCount c })
      hlay2 (fun q hq => hgood q (List.mem_cons_of_mem r hq)) (by simp at hfuel ⊢; omega)
    refine ⟨step.1, step.2.1, fun o w h => ?_⟩
    rcases step.2.2 o w h with hin | hbound
    · rcases List.mem_cons.mp hin with he | hin2
      · right
        have h1 := congrArg Prod.fst he
        have h2 := congrArg Prod.snd he
        simp only at h1 h2
        omega
      · exact Or.inl hin2
    · exact Or.inr hbound

/-- C5 amended: for a fragment whose declared trigger count is 0 (the "unknown;
stop solely on buffer-end" sentinel) holding well-formed trigger records
that tile its data region, the walker stops exactly when the data pointer
reaches the declared data end (it neither stops short nor overshoots) and
every header read it performs stays inside the data region — it never
reads past the declared end. -/
theorem C5_zero_count_stops_at_data_end (hs : Nat) (frag : Nat → RecordInfo)
    (rs : List RecordInfo) (fuel : Nat) (h0 : 0 < hs) (h64 : hs ≤ 2 ^ 64)
    (hlay : layoutOk frag 0 rs) (hgood : ∀ r ∈ rs, goodRec hs r)
    (hfuel : rs.length < fuel) :
    (walk hs frag (sumLen rs) 0 fuel 0 0 initWalkState).finalPtr = sumLen rs ∧
    (walk hs frag (sumLen rs) 0 fuel 0 0 initWalkState).fuelOut = false ∧
    ∀ o w : Nat, (o, w) ∈ (walk hs frag (sumLen rs) 0 fuel 0 0 initWalkState).state.reads →
      o + w ≤ sumLen rs := by
  have h := walk_tiling hs frag h0 h64 rs 0 fuel 0 initWalkState hlay hgood hfuel
  rw [Nat.zero_add] at h
  refine ⟨h.1, h.2.1, fun o w hm => ?_⟩
  rcases h.2.2 o w hm with hin | hb
  · simp [initWalkState] at hin
  · exact hb

/-- C5 witness: a single 12-word record (`wfRecord`) tiling a 12-word data
region, walked with trigger count 0. -/
theorem C5_witness :
    (walk 12 wfFrag (sumLen [wfRecord]) 0 2 0 0 initWalkState).finalPtr = sumLen [wfRecord] ∧
    (walk 12 wfFrag (sumLen [wfRecord]) 0 2 0 0 initWalkState).fuelOut = false ∧
    ∀ o w : Nat, (o, w) ∈ (walk 12 wfFrag (sumLen [wfRecord]) 0 2 0 0 initWalkState).state.reads →
      o + w ≤ sumLen [wfRecord] :=
  C5_zero_count_stops_at_data_end 12 wfFrag [wfRecord] 2 (by omega) (by norm_num)
    (by exact ⟨rfl, trivial⟩)
    (by
      intro r hr
      rw [List.mem_singleton] at hr
      subst hr
      exact ⟨by norm_num [wfRecord], by norm_num [wfRecord],
        ⟨3, 10 ^ 16, 0, 0, 0⟩, rfl, by norm_num [timeThreshold, wfRecord]⟩)
    (by norm_num)

/-- C2 counterexample: start a run from a state in which channel 7's
waveform-vs-time histogram holds prior-run content.  `beginRun`
(lines 172-177) leaves `averageWaveforms` untouched, so after the
run-start clearing the waveform-vs-time distribution of channel 7 still
holds its prior-run fill — the claim that all four per-channel
distribution kinds are empty at run start is false. -/
theorem C2_cex : (beginRunClear preRunState).averageWaveforms 7 = some [(0, 1)] := rfl

/-- C2 amended: at the start of every run exactly three of the four
per-channel distribution kinds — amplitude, charge and
amplitude-vs-charge — are cleared; the waveform-vs-time map
(`averageWaveforms`) is not cleared and keeps whatever content it had
before the run boundary. -/
theorem C2_amended : ∀ (s : AnaMaps) (ch : Nat),
    (beginRunClear s).PulseAmplitudePerChannel ch = none ∧
    (beginRunClear s).IntegratedChargePerChannel ch = none ∧
    (beginRunClear s).PulseAmplitudeVsIntegratedChargePerChannel ch = none ∧
    (beginRunClear s).averageWaveforms ch = s.averageWaveforms ch :=
  fun _ _ => ⟨rfl, rfl, rfl, rfl⟩

/-- C10: the event-analysis fill path stores entries under any channel id
(no bound is applied), while every end-of-run and end-of-job loop
(`for ( int i = 0; i < 100; ++i )`, lines 229/246/292/311/352) iterates
only ids 0..99 — a channel id `≥ 100` accumulates per-channel entries but
is never formatted, never calibrated, never added to the run-spanning
summary, and never persisted at job end. -/
theorem C10_oob_channel_never_processed (present : Nat → Bool)
    (m : Nat → Option (List ℚ)) (ch : Nat) (v : ℚ) (hch : 100 ≤ ch) :
    fillAmpMap m ch v ch ≠ none ∧
    ch ∉ endRunFormatLoop present ∧ ch ∉ endRunCalibLoop present ∧
    ch ∉ endRunSummaryLoop present ∧ ch ∉ endJobPersistLoop present := by
  refine ⟨by simp [fillAmpMap], ?_, ?_, ?_, ?_⟩ <;>
    · intro hmem
      simp only [endRunFormatLoop, endRunCalibLoop, endRunSummaryLoop, endJobPersistLoop,
        List.mem_filter, List.mem_range] at hmem
      omega

/-- C10 witness: channel 150 with a single fill. -/
theorem C10_witness :
    fillAmpMap (fun _ => none) 150 3 150 ≠ none ∧
    150 ∉ endRunFormatLoop (fun _ => true) ∧ 150 ∉ endRunCalibLoop (fun _ => true) ∧
    150 ∉ endRunSummaryLoop (fun _ => true) ∧ 150 ∉ endJobPersistLoop (fun _ => true) :=
  C10_oob_channel_never_processed (fun _ => true) (fun _ => none) 150 3 (by omega)

/-- The peak-difference loop is the fold form of "sum and count the
window-filtered differences": characterisation of the accumulator. -/
theorem peDiff_fold (lo hi : ℚ) (v : List ℚ) :
    ∀ (L : List Nat) (acc : ℚ × Nat),
      L.foldl (fun acc p =>
          let diff := v.getD (p + 1) 0 - v.getD p 0
          if diff > hi ∨ diff < lo then acc else (acc.1 + diff, acc.2 + 1)) acc =
        (acc.1 + ((L.map (fun p => v.getD (p + 1) 0 - v.getD p 0)).filter
            (fun d => decide (lo ≤ d ∧ d ≤ hi))).sum,
         acc.2 + ((L.map (fun p => v.getD (p + 1) 0 - v.getD p 0)).filter
            (fun d => decide (lo ≤ d ∧ d ≤ hi))).length) := by
  intro L
  induction L with
  | nil => intro acc; simp
  | cons p L ih =>
    intro acc
    simp only [List.foldl_cons, List.map_cons, List.filter_cons]
    by_cases hd : lo ≤ v.getD (p + 1) 0 - v.getD p 0 ∧ v.getD (p + 1) 0 - v.getD p 0 ≤ hi
    · rw [if_neg (by push_neg; exact ⟨hd.2, hd.1⟩)]
      rw [ih]
      simp only [hd, decide_eq_true_eq, and_self, if_true, List.sum_cons, List.length_cons,
        Prod.mk.injEq]
      constructor
      · ring
      · omega
    · have hcond : v.getD (p + 1) 0 - v.getD p 0 > hi ∨ v.getD (p + 1) 0 - v.getD p 0 < lo := by
        rcases not_and_or.mp hd with h1 | h2
        · exact Or.inr (lt_of_not_le h1)
        · exact Or.inl (lt_of_not_le h2)
      rw [if_pos hcond, ih]
      have hfalse : decide (lo ≤ v.getD (p + 1) 0 - v.getD p 0 ∧
          v.getD (p + 1) 0 - v.getD p 0 ≤ hi) ≠ true := by
        simpa using hd
      simp only [if_neg hfalse]

/-- C9 counterexample: candidate peaks at 0, 15, 30.  Excluding both the
first and the last peak (the claim's filter) leaves a single interior peak
and hence *no* differences — by the claim (and the spec's divide-by-zero
remark) the average would be undefined.  The code, however, keeps the
difference `30 − 15 = 15`, which involves the last peak: its loop count is
1 and `ADCperPE = 15`.  The claim's description of the filter is false of
the code. -/
theorem C9_cex :
    (peDiffLoop 10 20 [0, 15, 30]).2 = 1 ∧ ADCperPE [0, 15, 30] = 15 ∧
    specKeptDiffs 10 20 [0, 15, 30] = [] := by
  refine ⟨?_, ?_, ?_⟩
  · norm_num [peDiffLoop, sortPeaks, List.insertionSort, List.orderedInsert, List.range']
  · norm_num [ADCperPE, peDiffLoop, sortPeaks, List.insertionSort, List.orderedInsert,
      List.range']
  · norm_num [specKeptDiffs, sortPeaks, List.insertionSort, List.orderedInsert]

/-- C9 amended: the calibration sorts the candidate peaks ascending and
takes the consecutive differences at sorted positions `p = 1 .. n−2`
(`diff = v[p+1] − v[p]`): the difference involving the *first* peak is
excluded but the difference involving the *last* peak is included.  It
keeps only differences inside `[10, 20]` (`[1000, 1800]` for charge) and
returns their sum divided by their count; with zero kept differences the
count is 0 and the division is by zero (undefined for the source's
`double`; the `ℚ` model returns 0). -/
theorem C9_amended (lo hi : ℚ) (peaks : List ℚ) :
    peDiffLoop lo hi peaks = ((keptDiffs lo hi peaks).sum, (keptDiffs lo hi peaks).length) ∧
    ADCperPE peaks = (keptDiffs 10 20 peaks).sum / ((keptDiffs 10 20 peaks).length : ℚ) ∧
    INTperPE peaks = (keptDiffs 1000 1800 peaks).sum / ((keptDiffs 1000 1800 peaks).length : ℚ) ∧
    (keptDiffs 10 20 peaks = [] → ADCperPE peaks = 0) := by
  have key : ∀ a b : ℚ, peDiffLoop a b peaks =
      ((keptDiffs a b peaks).sum, (keptDiffs a b peaks).length) := by
    intro a b
    unfold peDiffLoop keptDiffs
    rw [peDiff_fold]
    simp
  refine ⟨key lo hi, ?_, ?_, ?_⟩
  · rw [ADCperPE, key 10 20]
  · rw [INTperPE, key 1000 1800]
  · intro he
    rw [ADCperPE, key 10 20, he]
    simp

/-- C9 amended witness: four coincident peaks — all differences are 0,
none passes the `[10, 20]` window, the kept list is empty and the model's
result of the zero-count division is 0. -/
theorem C9_witness :
    keptDiffs 10 20 [0, 0, 0, 0] = [] ∧ ADCperPE [0, 0, 0, 0] = 0 := by
  have he : keptDiffs 10 20 [0, 0, 0, 0] = [] := by
    norm_num [keptDiffs, sortPeaks, List.insertionSort, List.orderedInsert, List.range']
  exact ⟨he, (C9_amended 10 20 [0, 0, 0, 0]).2.2.2 he⟩

/-- `Fill` does not change the binning of either axis. -/
theorem fill_axes (h : TH2Dm) (x y w : ℚ) :
    (h.fill x y w).nbinsX = h.nbinsX ∧ (h.fill x y w).xlo = h.xlo ∧
    (h.fill x y w).xhi = h.xhi ∧ (h.fill x y w).nbinsY = h.nbinsY ∧
    (h.fill x y w).ylo = h.ylo ∧ (h.fill x y w).yhi = h.yhi :=
  ⟨rfl, rfl, rfl, rfl, rfl, rfl⟩

/-- `SetBinContent` does not change the binning of either axis. -/
theorem setBinContent_axes (h : TH2Dm) (bx iy : Nat) (v : ℚ) :
    (h.setBinContent bx iy v).nbinsX = h.nbinsX ∧ (h.setBinContent bx iy v).xlo = h.xlo ∧
    (h.setBinContent bx iy v).xhi = h.xhi ∧ (h.setBinContent bx iy v).nbinsY = h.nbinsY ∧
    (h.setBinContent bx iy v).ylo = h.ylo ∧ (h.setBinContent bx iy v).yhi = h.yhi := by
  unfold TH2Dm.setBinContent
  split <;> exact ⟨rfl, rfl, rfl, rfl, rfl, rfl⟩

/-- Cell-level description of `Fill`. -/
theorem fill_content (h : TH2Dm) (x y w : ℚ) (a b : Nat) :
    (h.fill x y w).content a b =
      if a = findBin h.nbinsX h.xlo h.xhi x ∧ b = findBin h.nbinsY h.ylo h.yhi y
      then h.content a b + w else h.content a b := rfl

/-- Cell-level description of `SetBinContent` (out-of-range indices are a
no-op). -/
theorem setBinContent_content (h : TH2Dm) (bx iy : Nat) (v : ℚ) (a b : Nat) :
    (h.setBinContent bx iy v).content a b =
      if a = bx ∧ b = iy ∧ bx ≤ h.nbinsX + 1 ∧ iy ≤ h.nbinsY + 1
      then v else h.content a b := by
  unfold TH2Dm.setBinContent
  by_cases hin : bx ≤ h.nbinsX + 1 ∧ iy ≤ h.nbinsY + 1
  · rw [if_pos hin]
    by_cases hab : a = bx ∧ b = iy
    · show (if a = bx ∧ b = iy then v else h.content a b) = _
      rw [if_pos hab, if_pos ⟨hab.1, hab.2, hin.1, hin.2⟩]
    · show (if a = bx ∧ b = iy then v else h.content a b) = _
      rw [if_neg hab, if_neg (by tauto)]
  · rw [if_neg hin, if_neg (by tauto)]

/-- Folding any axis-preserving operation over a list of bins preserves
both axes. -/
theorem foldl_axes_preserved (f : TH2Dm → Nat → TH2Dm)
    (hf : ∀ (h : TH2Dm) (k : Nat), (f h k).nbinsX = h.nbinsX ∧ (f h k).xlo = h.xlo ∧
      (f h k).xhi = h.xhi ∧ (f h k).nbinsY = h.nbinsY ∧ (f h k).ylo = h.ylo ∧
      (f h k).yhi = h.yhi) :
    ∀ (L : List Nat) (h : TH2Dm),
      (L.foldl f h).nbinsX = h.nbinsX ∧ (L.foldl f h).xlo = h.xlo ∧
      (L.foldl f h).xhi = h.xhi ∧ (L.foldl f h).nbinsY = h.nbinsY ∧
      (L.foldl f h).ylo = h.ylo ∧ (L.foldl f h).yhi = h.yhi := by
  intro L
  induction L with
  | nil => intro h; exact ⟨rfl, rfl, rfl, rfl, rfl, rfl⟩
  | cons c L ih =>
    intro h
    obtain ⟨e1, e2, e3, e4, e5, e6⟩ := ih (f h c)
    obtain ⟨g1, g2, g3, g4, g5, g6⟩ := hf h c
    rw [List.foldl_cons]
    exact ⟨e1.trans g1, e2.trans g2, e3.trans g3, e4.trans g4, e5.trans g5, e6.trans g6⟩

/-- On the 125-bin `[-20, 230)` axis the bin centers of bins `0 .. 125`
map back to the same bin index: `FindBin(GetBinCenter(k)) = k` (bin 0's
center lies below the axis and lands in the underflow bin 0). -/
theorem findBin_ampBinCenter (k : Nat) (hk : k ≤ 125) :
    findBin 125 (-20) 230 (ampBinCenter k) = k := by
  match k with
  | 0 =>
    unfold findBin ampBinCenter
    norm_num
  | k + 1 =>
    unfold findBin ampBinCenter
    have hx : (-20 : ℚ) ≤ -20 + ((k + 1 : ℚ) - 1) * 2 + 1 := by
      linarith [Nat.cast_nonneg (α := ℚ) k]
    have hk124 : (k : ℚ) ≤ 124 := by
      have : (k : ℚ) ≤ (124 : Nat) := by exact_mod_cast Nat.le_of_lt_succ (by omega)
      simpa using this
    rw [if_neg (by push_cast; linarith), if_neg (by push_cast; linarith)]
    have harg : (125 : ℚ) * ((-20 + ((k + 1 : ℚ) - 1) * 2 + 1) - (-20)) / (230 - (-20)) =
        (2 * (k : ℚ) + 1) / 2 := by
      ring
    push_cast
    rw [harg]
    have hfl : ⌊(2 * (k : ℚ) + 1) / 2⌋ = (k : ℤ) := by
      rw [Int.floor_eq_iff]
      constructor
      · rw [le_div_iff₀ (by norm_num)]
        push_cast
        linarith
      · rw [div_lt_iff₀ (by norm_num)]
        push_cast
        linarith
    rw [hfl]
    omega

/-- Cell-level description of the "add the new data" fold (the body of
`addRunData`) over any duplicate-free list of source bins `0 .. 125`, for a
histogram with the standard `125/[-20,230)` Y axis: the column of the run's
X bin receives each source bin's content additively, everything else is
untouched. -/
theorem addFold_content (run : Nat) (hsrc : Nat → ℚ) :
    ∀ (L : List Nat) (h : TH2Dm) (a b : Nat),
      h.nbinsY = 125 → h.ylo = -20 → h.yhi = 230 →
      L.Nodup → (∀ k ∈ L, k ≤ 125) →
      (L.foldl (fun acc binY => acc.fill (run : ℚ) (ampBinCenter binY) (hsrc binY)) h).content a b =
        (if a = findBin h.nbinsX h.xlo h.xhi (run : ℚ) ∧ b ∈ L
         then h.content a b + hsrc b else h.content a b) := by
  intro L
  induction L with
  | nil =>
    intro h a b _ _ _ _ _
    simp
  | cons c L ih =>
    intro h a b hY hylo hyhi hnd hmem
    rw [List.foldl_cons]
    obtain ⟨e1, e2, e3, e4, e5, e6⟩ := fill_axes h (run : ℚ) (ampBinCenter c) (hsrc c)
    rw [ih (h.fill (run : ℚ) (ampBinCenter c) (hsrc c)) a b (e4.trans hY) (e5.trans hylo)
      (e6.trans hyhi) (List.nodup_cons.mp hnd).2 (fun k hk => hmem k (List.mem_cons_of_mem c hk))]
    rw [e1, e2, e3]
    have hcbin : findBin h.nbinsY h.ylo h.yhi (ampBinCenter c) = c := by
      rw [hY, hylo, hyhi]
      exact findBin_ampBinCenter c (hmem c (List.mem_cons_self c L))
    rw [fill_content, hcbin]
    by_cases ha : a = findBin h.nbinsX h.xlo h.xhi (run : ℚ)
    · by_cases hbc : b = c
      · have hbL : b ∉ L := hbc ▸ (List.nodup_cons.mp hnd).1
        rw [if_neg (by tauto), if_pos ⟨ha, hbc⟩, if_pos ⟨ha, by simp [hbc]⟩, hbc]
      · by_cases hbL : b ∈ L
        · rw [if_pos ⟨ha, hbL⟩, if_neg (by tauto), if_pos ⟨ha, List.mem_cons_of_mem c hbL⟩]
        · rw [if_neg (by tauto), if_neg (by tauto),
            if_neg (by
              intro hcon
              rcases List.mem_cons.mp hcon.2 with h1 | h1
              · exact hbc h1
              · exact hbL h1)]
    · rw [if_neg (by tauto), if_neg (by tauto), if_neg (by tauto)]

/-- Cell-level description of the resize copy fold (the body of
`copyOldRow`) over any duplicate-free list of Y bins within range: the
target X bin (the new histogram's `FindBin` of the old row's truncated low
edge) receives the old row's cells, everything else is untouched.  When
the target X bin is out of range the `SetBinContent` calls are no-ops. -/
theorem copyFold_content (old : TH2Dm) (binX : Nat) :
    ∀ (L : List Nat) (h : TH2Dm) (a b : Nat),
      L.Nodup → (∀ k ∈ L, k ≤ h.nbinsY + 1) →
      ((L.foldl (fun h2 binY =>
          let oldVal := old.content binX binY
          let runNum : ℤ := cppTrunc (binLowEdge old.nbinsX old.xlo old.xhi binX)
          h2.setBinContent (findBin h2.nbinsX h2.xlo h2.xhi (runNum : ℚ)) binY oldVal) h).content a b) =
        (if a = findBin h.nbinsX h.xlo h.xhi
              ((cppTrunc (binLowEdge old.nbinsX old.xlo old.xhi binX) : ℤ) : ℚ) ∧ b ∈ L ∧
              a ≤ h.nbinsX + 1
         then old.content binX b else h.content a b) := by
  intro L
  induction L with
  | nil =>
    intro h a b _ _
    simp
  | cons c L ih =>
    intro h a b hnd hmem
    rw [List.foldl_cons]
    dsimp only
    obtain ⟨e1, e2, e3, e4, e5, e6⟩ := setBinContent_axes h
      (findBin h.nbinsX h.xlo h.xhi
        ((cppTrunc (binLowEdge old.nbinsX old.xlo old.xhi binX) : ℤ) : ℚ)) c
      (old.content binX c)
    rw [ih _ a b (List.nodup_cons.mp hnd).2
      (fun k hk => (hmem k (List.mem_cons_of_mem c hk)).trans (by rw [e4]))]
    rw [e1, e2, e3]
    rw [setBinContent_content]
    by_cases ha : a = findBin h.nbinsX h.xlo h.xhi
        ((cppTrunc (binLowEdge old.nbinsX old.xlo old.xhi binX) : ℤ) : ℚ)
    · by_cases hbound : a ≤ h.nbinsX + 1
      · by_cases hbc : b = c
        · have hbL : b ∉ L := hbc ▸ (List.nodup_cons.mp hnd).1
          rw [if_neg (by tauto),
            if_pos ⟨ha.symm ▸ rfl, hbc,
              by rw [← ha]; exact hbound, hbc ▸ hmem c (List.mem_cons_self c L)⟩,
            if_pos ⟨ha, by simp [hbc], hbound⟩, hbc]
        · by_cases hbL : b ∈ L
          · rw [if_pos ⟨ha, hbL, hbound⟩, if_pos ⟨ha, List.mem_cons_of_mem c hbL, hbound⟩]
          · rw [if_neg (by tauto), if_neg (by tauto),
              if_neg (by
                intro hcon
                rcases List.mem_cons.mp hcon.2.1 with h1 | h1
                · exact hbc h1
                · exact hbL h1)]
      · rw [if_neg (by tauto), if_neg (fun hcon => hbound (ha ▸ hcon.2.2.1)),
          if_neg (by tauto)]
    · rw [if_neg (by tauto), if_neg (fun hcon => ha hcon.1), if_neg (by tauto)]

/-- Axes of the run-5 summary `extendSummary none 5 h5`. -/
theorem extendNone5_axes (h5 : Nat → ℚ) :
    (extendSummary none 5 h5).nbinsX = 1 ∧ (extendSummary none 5 h5).xlo = 5 ∧
    (extendSummary none 5 h5).xhi = 6 ∧ (extendSummary none 5 h5).nbinsY = 125 ∧
    (extendSummary none 5 h5).ylo = -20 ∧ (extendSummary none 5 h5).yhi = 230 := by
  show (addRunData (freshSummary 5) 5 h5).nbinsX = 1 ∧ _
  unfold addRunData
  obtain ⟨e1, e2, e3, e4, e5, e6⟩ := foldl_axes_preserved
    (fun acc binY => acc.fill ((5 : Nat) : ℚ) (ampBinCenter binY) (h5 binY))
    (fun h k => fill_axes h _ _ _) (List.range (125 + 1)) (freshSummary 5)
  exact ⟨e1.trans rfl, e2.trans (by norm_num [freshSummary]),
    e3.trans (by norm_num [freshSummary]), e4.trans rfl, e5.trans rfl, e6.trans rfl⟩

/-- Contents of the run-5 summary `extendSummary none 5 h5`: the per-run
amplitude distribution sits in X bin 1 (the only real run bin, run 5),
every other cell is 0. -/
theorem extendNone5_content (h5 : Nat → ℚ) :
    ∀ a b : Nat, (extendSummary none 5 h5).content a b =
      (if a = 1 ∧ b ∈ List.range 126 then h5 b else 0) := by
  intro a b
  show (addRunData (freshSummary 5) 5 h5).content a b = _
  unfold addRunData
  rw [addFold_content 5 h5 (List.range (125 + 1)) (freshSummary 5) a b rfl rfl rfl
    (List.nodup_range _) (fun k hk => by rw [List.mem_range] at hk; omega)]
  have hfb : findBin (freshSummary 5).nbinsX (freshSummary 5).xlo (freshSummary 5).xhi
      ((5 : Nat) : ℚ) = 1 := by
    norm_num [freshSummary, findBin]
  rw [hfb]
  show (if a = 1 ∧ b ∈ List.range (125 + 1) then 0 + h5 b else 0) = _
  norm_num

/-- Unfolding the resize step of `extend run 5 → extend run 3`: the new
histogram spans `[3, 6)` with 3 run bins, and the copy loop runs over the
old rows `binX = 0, 1`. -/
theorem resize_run3_eq (h5 : Nat → ℚ) :
    resizeSummary (extendSummary none 5 h5) 3 =
      copyOldRow (extendSummary none 5 h5) 1
        (copyOldRow (extendSummary none 5 h5) 0
          (⟨3, 3, 6, 125, -20, 230, fun _ _ => 0⟩ : TH2Dm)) := by
  obtain ⟨a1, a2, a3, a4, a5, a6⟩ := extendNone5_axes h5
  unfold resizeSummary
  rw [a1, a2, a3]
  have hlow1 : binLowEdge 1 5 6 1 = 5 := by norm_num [binLowEdge, binWidth]
  rw [hlow1]
  have hmin : min ((3 : Nat) : ℚ) 5 = 3 := by norm_num
  have hmax : max ((3 : Nat) : ℚ) 5 = 5 := by norm_num
  rw [hmin, hmax]
  have ht3 : cppTrunc 3 = 3 := by norm_num [cppTrunc]
  have ht5 : cppTrunc 5 = 5 := by norm_num [cppTrunc]
  rw [ht3, ht5]
  have hrange : List.range (1 + 1) = [0, 1] := by decide
  rw [hrange]
  rw [List.foldl_cons, List.foldl_cons, List.foldl_nil]
  have hbase : (⟨((5 : ℤ) - 3 + 1).toNat, ((3 : ℤ) : ℚ), ((5 : ℤ) : ℚ) + 1, 125, -20, 230,
      fun _ _ => 0⟩ : TH2Dm) = (⟨3, 3, 6, 125, -20, 230, fun _ _ => 0⟩ : TH2Dm) := by
    have htn : ((5 : ℤ) - 3 + 1).toNat = 3 := by decide
    rw [htn]
    norm_num
  rw [hbase]

/-- `copyOldRow` preserves the axes of the histogram being written. -/
theorem copyOldRow_axes (old : TH2Dm) (binX : Nat) (h : TH2Dm) :
    (copyOldRow old binX h).nbinsX = h.nbinsX ∧ (copyOldRow old binX h).xlo = h.xlo ∧
    (copyOldRow old binX h).xhi = h.xhi ∧ (copyOldRow old binX h).nbinsY = h.nbinsY ∧
    (copyOldRow old binX h).ylo = h.ylo ∧ (copyOldRow old binX h).yhi = h.yhi := by
  unfold copyOldRow
  exact foldl_axes_preserved _ (fun h2 k => setBinContent_axes h2 _ _ _) _ h

/-- Contents of the resized histogram in the `extend run 5 → extend run 3`
scenario: the old real bin 1 (run 5) lands in new bin 3, the old underflow
row lands in new bin 2 (the code's copy loop includes `binX = 0`, whose
truncated low edge is run 4), and every other cell is 0. -/
theorem resize_run3_content (h5 : Nat → ℚ) :
    ∀ a b : Nat, (resizeSummary (extendSummary none 5 h5) 3).content a b =
      (if a = 3 ∧ b ∈ List.range 126 then (extendSummary none 5 h5).content 1 b
       else if a = 2 ∧ b ∈ List.range 126 then (extendSummary none 5 h5).content 0 b
       else 0) := by
  obtain ⟨a1, a2, a3, a4, a5, a6⟩ := extendNone5_axes h5
  intro a b
  rw [resize_run3_eq]
  have hbaseX : (copyOldRow (extendSummary none 5 h5) 0
      (⟨3, 3, 6, 125, -20, 230, fun _ _ => 0⟩ : TH2Dm)).nbinsX = 3 :=
    (copyOldRow_axes _ _ _).1
  have hbaseXlo : (copyOldRow (extendSummary none 5 h5) 0
      (⟨3, 3, 6, 125, -20, 230, fun _ _ => 0⟩ : TH2Dm)).xlo = 3 :=
    (copyOldRow_axes _ _ _).2.1
  have hbaseXhi : (copyOldRow (extendSummary none 5 h5) 0
      (⟨3, 3, 6, 125, -20, 230, fun _ _ => 0⟩ : TH2Dm)).xhi = 6 :=
    (copyOldRow_axes _ _ _).2.2.1
  have hbaseY : (copyOldRow (extendSummary none 5 h5) 0
      (⟨3, 3, 6, 125, -20, 230, fun _ _ => 0⟩ : TH2Dm)).nbinsY = 125 :=
    (copyOldRow_axes _ _ _).2.2.2.1
  have houter : copyOldRow (extendSummary none 5 h5) 1
      (copyOldRow (extendSummary none 5 h5) 0
        (⟨3, 3, 6, 125, -20, 230, fun _ _ => 0⟩ : TH2Dm)) =
      (List.range 126).foldl (fun h2 binY =>
        let oldVal := (extendSummary none 5 h5).content 1 binY
        let runNum : ℤ := cppTrunc (binLowEdge (extendSummary none 5 h5).nbinsX
          (extendSummary none 5 h5).xlo (extendSummary none 5 h5).xhi 1)
        h2.setBinContent (findBin h2.nbinsX h2.xlo h2.xhi (runNum : ℚ)) binY oldVal)
      (copyOldRow (extendSummary none 5 h5) 0
        (⟨3, 3, 6, 125, -20, 230, fun _ _ => 0⟩ : TH2Dm)) := by
    unfold copyOldRow
    rw [a4]
  rw [houter]
  rw [copyFold_content (extendSummary none 5 h5) 1 (List.range 126) _ a b
    (List.nodup_range _) (fun k hk => by rw [List.mem_range] at hk; rw [hbaseY]; omega)]
  have htarg1 : findBin (copyOldRow (extendSummary none 5 h5) 0
        (⟨3, 3, 6, 125, -20, 230, fun _ _ => 0⟩ : TH2Dm)).nbinsX
      (copyOldRow (extendSummary none 5 h5) 0
        (⟨3, 3, 6, 125, -20, 230, fun _ _ => 0⟩ : TH2Dm)).xlo
      (copyOldRow (extendSummary none 5 h5) 0
        (⟨3, 3, 6, 125, -20, 230, fun _ _ => 0⟩ : TH2Dm)).xhi
      ((cppTrunc (binLowEdge (extendSummary none 5 h5).nbinsX (extendSummary none 5 h5).xlo
        (extendSummary none 5 h5).xhi 1) : ℤ) : ℚ) = 3 := by
    rw [hbaseX, hbaseXlo, hbaseXhi, a1, a2, a3]
    have h1 : binLowEdge 1 5 6 1 = 5 := by norm_num [binLowEdge, binWidth]
    rw [h1]
    have h2 : cppTrunc 5 = 5 := by norm_num [cppTrunc]
    rw [h2]
    norm_num [findBin]
    decide
  rw [htarg1, hbaseX]
  have hinner : copyOldRow (extendSummary none 5 h5) 0
      (⟨3, 3, 6, 125, -20, 230, fun _ _ => 0⟩ : TH2Dm) =
      (List.range 126).foldl (fun h2 binY =>
        let oldVal := (extendSummary none 5 h5).content 0 binY
        let runNum : ℤ := cppTrunc (binLowEdge (extendSummary none 5 h5).nbinsX
          (extendSummary none 5 h5).xlo (extendSummary none 5 h5).xhi 0)
        h2.setBinContent (findBin h2.nbinsX h2.xlo h2.xhi (runNum : ℚ)) binY oldVal)
      (⟨3, 3, 6, 125, -20, 230, fun _ _ => 0⟩ : TH2Dm) := by
    unfold copyOldRow
    rw [a4]
  have hinnerC : ∀ a b : Nat, (copyOldRow (extendSummary none 5 h5) 0
      (⟨3, 3, 6, 125, -20, 230, fun _ _ => 0⟩ : TH2Dm)).content a b =
      (if a = 2 ∧ b ∈ List.range 126 ∧ a ≤ 3 + 1
       then (extendSummary none 5 h5).content 0 b else 0) := by
    intro a' b'
    rw [hinner]
    rw [copyFold_content (extendSummary none 5 h5) 0 (List.range 126) _ a' b'
      (List.nodup_range _)
      (fun k hk => by
        rw [List.mem_range] at hk
        show k ≤ 125 + 1
        omega)]
    have htarg0 : findBin (3 : Nat) (3 : ℚ) (6 : ℚ)
        ((cppTrunc (binLowEdge (extendSummary none 5 h5).nbinsX (extendSummary none 5 h5).xlo
          (extendSummary none 5 h5).xhi 0) : ℤ) : ℚ) = 2 := by
      rw [a1, a2, a3]
      have h1 : binLowEdge 1 5 6 0 = 4 := by norm_num [binLowEdge, binWidth]
      rw [h1]
      have h2 : cppTrunc 4 = 4 := by norm_num [cppTrunc]
      rw [h2]
      norm_num [findBin]
    rw [htarg0]
  rw [hinnerC a b]
  by_cases h3 : a = 3 ∧ b ∈ List.range 126
  · rw [if_pos ⟨h3.1, h3.2, by omega⟩, if_pos h3]
  · rw [if_neg (by tauto), if_neg h3]
    by_cases h2c : a = 2 ∧ b ∈ List.range 126
    · rw [if_pos ⟨h2c.1, h2c.2, by omega⟩, if_pos h2c]
    · rw [if_neg (by tauto), if_neg h2c]

/-- C3: per channel, extending the run-spanning summary with run 5 and
then with run 3 yields a histogram whose X axis spans `[3, 6)` (3 one-run
bins); every amplitude cell of the run-5 bin (X bin 1 of the old
histogram) is preserved unchanged, relocated to X bin 3 of the new
histogram — including Y under/overflow, `b = 0 .. 126`; and the run-3
per-run amplitude distribution is then *added* into the `(run 3,
amplitude-bin)` cells (X bin 1) on top of the post-resize content, not
written over it. -/
theorem C3_extend_run5_then_run3 (h5 h3 : Nat → ℚ) :
    (extendSummary (some (extendSummary none 5 h5)) 3 h3).nbinsX = 3 ∧
    (extendSummary (some (extendSummary none 5 h5)) 3 h3).xlo = 3 ∧
    (extendSummary (some (extendSummary none 5 h5)) 3 h3).xhi = 6 ∧
    (∀ b : Nat, b ≤ 126 →
      (extendSummary (some (extendSummary none 5 h5)) 3 h3).content 3 b =
        (extendSummary none 5 h5).content 1 b) ∧
    (∀ b : Nat, b ≤ 125 →
      (extendSummary (some (extendSummary none 5 h5)) 3 h3).content 1 b =
        (resizeSummary (extendSummary none 5 h5) 3).content 1 b + h3 b) := by
  have hRax : (resizeSummary (extendSummary none 5 h5) 3).nbinsX = 3 ∧
      (resizeSummary (extendSummary none 5 h5) 3).xlo = 3 ∧
      (resizeSummary (extendSummary none 5 h5) 3).xhi = 6 ∧
      (resizeSummary (extendSummary none 5 h5) 3).nbinsY = 125 ∧
      (resizeSummary (extendSummary none 5 h5) 3).ylo = -20 ∧
      (resizeSummary (extendSummary none 5 h5) 3).yhi = 230 := by
    rw [resize_run3_eq]
    obtain ⟨o1, o2, o3, o4, o5, o6⟩ := copyOldRow_axes (extendSummary none 5 h5) 1
      (copyOldRow (extendSummary none 5 h5) 0
        (⟨3, 3, 6, 125, -20, 230, fun _ _ => 0⟩ : TH2Dm))
    obtain ⟨i1, i2, i3, i4, i5, i6⟩ := copyOldRow_axes (extendSummary none 5 h5) 0
      (⟨3, 3, 6, 125, -20, 230, fun _ _ => 0⟩ : TH2Dm)
    exact ⟨o1.trans i1, o2.trans i2, o3.trans i3, o4.trans i4, o5.trans i5, o6.trans i6⟩
  obtain ⟨r1, r2, r3, r4, r5, r6⟩ := hRax
  have hH2def : extendSummary (some (extendSummary none 5 h5)) 3 h3 =
      addRunData (resizeSummary (extendSummary none 5 h5) 3) 3 h3 := rfl
  obtain ⟨x1, x2, x3, x4, x5, x6⟩ := foldl_axes_preserved
    (fun acc binY => acc.fill ((3 : Nat) : ℚ) (ampBinCenter binY) (h3 binY))
    (fun h k => fill_axes h _ _ _) (List.range (125 + 1))
    (resizeSummary (extendSummary none 5 h5) 3)
  have hH2ax : (extendSummary (some (extendSummary none 5 h5)) 3 h3).nbinsX = 3 ∧
      (extendSummary (some (extendSummary none 5 h5)) 3 h3).xlo = 3 ∧
      (extendSummary (some (extendSummary none 5 h5)) 3 h3).xhi = 6 := by
    rw [hH2def]
    unfold addRunData
    exact ⟨x1.trans r1, x2.trans r2, x3.trans r3⟩
  have hfb3 : findBin (resizeSummary (extendSummary none 5 h5) 3).nbinsX
      (resizeSummary (extendSummary none 5 h5) 3).xlo
      (resizeSummary (extendSummary none 5 h5) 3).xhi ((3 : Nat) : ℚ) = 1 := by
    rw [r1, r2, r3]
    norm_num [findBin]
  have hH2c : ∀ a b : Nat, (extendSummary (some (extendSummary none 5 h5)) 3 h3).content a b =
      (if a = 1 ∧ b ∈ List.range 126
       then (resizeSummary (extendSummary none 5 h5) 3).content a b + h3 b
       else (resizeSummary (extendSummary none 5 h5) 3).content a b) := by
    intro a b
    rw [hH2def]
    unfold addRunData
    rw [addFold_content 3 h3 (List.range (125 + 1))
      (resizeSummary (extendSummary none 5 h5) 3) a b r4 r5 r6 (List.nodup_range _)
      (fun k hk => by rw [List.mem_range] at hk; omega), hfb3]
  refine ⟨hH2ax.1, hH2ax.2.1, hH2ax.2.2, ?_, ?_⟩
  · intro b hb
    rw [hH2c 3 b, if_neg (by simp), resize_run3_content h5 3 b]
    by_cases hbr : b ∈ List.range 126
    · rw [if_pos ⟨rfl, hbr⟩]
    · rw [if_neg (by tauto), if_neg (by norm_num)]
      rw [List.mem_range] at hbr
      have hb126 : b = 126 := by omega
      rw [extendNone5_content h5 1 b, if_neg (by rw [hb126]; simp)]
  · intro b hb
    rw [hH2c 1 b, if_pos ⟨rfl, by rw [List.mem_range]; omega⟩]

/-- C3 witness: instance of the preservation clause at amplitude bin 7 for
the constant distributions `h5 = h3 = 1`. -/
theorem C3_witness :
    (extendSummary (some (extendSummary none 5 (fun _ => 1))) 3 (fun _ => 1)).content 3 7 =
      (extendSummary none 5 (fun _ => 1)).content 1 7 ∧
    (extendSummary (some (extendSummary none 5 (fun _ => 1))) 3 (fun _ => 1)).content 1 7 =
      (resizeSummary (extendSummary none 5 (fun _ => 1)) 3).content 1 7 + 1 :=
  ⟨(C3_extend_run5_then_run3 (fun _ => 1) (fun _ => 1)).2.2.2.1 7 (by omega),
   (C3_extend_run5_then_run3 (fun _ => 1) (fun _ => 1)).2.2.2.2 7 (by omega)⟩

/-- C5 counterexample: the claim as stated quantifies over *every*
fragment with declared trigger count 0, including corrupt ones.  On
`desyncFrag` (one record at offset 0 declaring 20 words whose header-field
extraction fails, data end 20, header size 12) the walk does not stop
exactly at the declared data end — its final pointer is 24 — and it
performs a header read at (offset 12, 12 words) whose span `12 + 12 = 24`
extends past the declared end 20: the walker does read past the data end
on such a fragment. -/
theorem C5_cex :
    (walk 12 desyncFrag 20 0 5 0 0 initWalkState).finalPtr = 24 ∧
    (12, 12) ∈ (walk 12 desyncFrag 20 0 5 0 0 initWalkState).state.reads ∧
    ¬ 12 + 12 ≤ 20 := by
  refine ⟨rfl, ?_, by omega⟩
  show (12, 12) ∈ [(12, 12), (0, 12)]
  exact List.mem_cons_self _ _
